import Mathlib

/-!
Shallow embedding of the acquisition-and-buffering subsystem of the
ESP32-C6 multi-sensor IMU module.

Sources embedded:
* ESP32C6_IIS3_WebMonitor_HighSpeed/main/main.c — the acquisition loop
  imu_task (lines 127-174) with its rolling statistics window, and the
  failure branch.
* imu_manager.h — the imu_data_t record (flattened here into ImuData).

The implementations of the sample store (data_buffer.c and imu_manager.c,
declared in the headers and called from main.c) are not among the
provided sources; the store operations push, peek_latest and copy_recent
are therefore modelled from the specification (sections 3, 4.2) and
carry doc comments saying so.

Machine integers are modelled as Nat with explicit reduction modulo
2 ^ 32 or 2 ^ 64 where the C code can overflow.  The float arithmetic of
the statistics report (C float) is modelled exactly over Rat; every
concrete value appearing in the claims (1000000 / 1000000, 100 * 10, a
division by 1) is exactly representable in IEEE single precision, so the
rational model agrees with the C float computation on those traces.
-/

/-- Unsigned 64-bit subtraction, the value of the C expression
now - stats_window_start at main.c line 152, where both operands have
type uint64_t and the difference is taken modulo 2 ^ 64. -/
def sub64 (a b : Nat) : Nat := (a + 2 ^ 64 - b) % 2 ^ 64

/-- Unsigned 32-bit subtraction, used for wraparound-safe comparison of
32-bit sequence_id values. -/
def sub32 (a b : Nat) : Nat := (a + 2 ^ 32 - b) % 2 ^ 32

/-- One decoded reading, the imu_data_t record of imu_manager.h with the
nested accelerometer and stats structs flattened.  Float fields are
modelled as Rat. -/
structure ImuData where
  timestamp_us : Nat
  x_g : Rat
  y_g : Rat
  z_g : Rat
  magnitude_g : Rat
  valid : Bool
  fifo_level : Nat
  samples_read : Nat
  odr_hz : Rat
  batch_interval_us : Rat
  samples_per_second : Rat
deriving DecidableEq

/-- The rolling-window counters of imu_task, main.c lines 141-143:
batch_count and sample_accumulator are uint32_t, stats_window_start is
uint64_t. -/
structure ImuStats where
  batch_count : Nat
  sample_accumulator : Nat
  stats_window_start : Nat
deriving DecidableEq

/-- The statistics update performed on a successful read, main.c lines
148-166: increment batch_count, add samples_read to sample_accumulator
(both uint32_t, hence modulo 2 ^ 32), then close the rolling window when
now - stats_window_start is at least 1000000 microseconds in uint64
arithmetic.  Closing reports (msg_per_sec, samples_per_sec) computed
from the updated counters and the elapsed seconds, zeroes both counters
and moves the window start to the current sample timestamp.  Returns the
new counters and the optional report. -/
def statsUpdate (st : ImuStats) (d : ImuData) : ImuStats × Option (Rat × Rat) :=
  let batch_count : Nat := (st.batch_count + 1) % 2 ^ 32
  let sample_accumulator : Nat := (st.sample_accumulator + d.samples_read) % 2 ^ 32
  let now := d.timestamp_us
  if 1000000 ≤ sub64 now st.stats_window_start then
    let elapsed_s : Rat := (sub64 now st.stats_window_start : Rat) / 1000000
    let msg_per_sec : Rat := (batch_count : Rat) / elapsed_s
    let samples_per_sec : Rat := (sample_accumulator : Rat) / elapsed_s
    (⟨0, 0, now⟩, some (msg_per_sec, samples_per_sec))
  else
    (⟨batch_count, sample_accumulator, st.stats_window_start⟩, none)

/-- Runs the statistics update over a list of successfully decoded
samples, returning the final counters and the per-cycle reports in cycle
order. -/
def statsRun (s : ImuStats) : List ImuData → ImuStats × List (Option (Rat × Rat))
  | [] => (s, [])
  | d :: rest =>
    let step := statsUpdate s d
    let next := statsRun step.1 rest
    (next.1, step.2 :: next.2)

/-- A sample as stored in the ring, tagged with the sequence_id assigned
by the push that wrote it. -/
structure StoredSample where
  data : ImuData
  sequence_id : Nat
deriving DecidableEq

/-- Modelled from the spec: the fixed-capacity sample store of section 3
(the implementations of data_buffer.c and imu_manager.c are not among
the provided sources).  A ring of capacity slots, a write cursor that
advances modulo the capacity, the number of pushes so far, and the
latest published 32-bit wrapping sequence_id. -/
structure SampleStore where
  capacity : Nat
  slots : Nat → Option StoredSample
  cursor : Nat
  pushes : Nat
  sequence_id : Nat

/-- Modelled from the spec: a freshly created store of capacity n, every
slot in the not-yet-written state, no pushes, sequence counter zero.
The cursor starts at n - 1 so that the first push, which advances the
cursor modulo n before writing, writes slot 0. -/
def initStore (n : Nat) : SampleStore :=
  { capacity := n
    slots := fun _ => none
    cursor := n - 1
    pushes := 0
    sequence_id := 0 }

/-- Modelled from the spec, section 4.2 push: advance the cursor modulo
the capacity, write the sample into that slot tagged with the next
sequence_id, then publish the incremented 32-bit wrapping sequence_id. -/
def SampleStore.push (st : SampleStore) (d : ImuData) : SampleStore :=
  let c := (st.cursor + 1) % st.capacity
  let sid := (st.sequence_id + 1) % 2 ^ 32
  { capacity := st.capacity
    slots := fun j => if j = c then some ⟨d, sid⟩ else st.slots j
    cursor := c
    pushes := st.pushes + 1
    sequence_id := sid }

/-- Pushes a whole list of samples, oldest first. -/
def pushAll (st : SampleStore) (hs : List ImuData) : SampleStore :=
  hs.foldl SampleStore.push st

/-- Modelled from the spec, section 4.2 peek_latest: returns the sample
at the most recently published cursor position, or none if nothing has
ever been pushed. -/
def peek_latest (st : SampleStore) : Option StoredSample :=
  if st.pushes = 0 then none else st.slots st.cursor

/-- Modelled from the spec, section 4.2 copy_recent: returns the
min(max_count, min(capacity, pushes)) most recent samples ordered
oldest-to-newest, read from the ring going backwards from the cursor.
This models imu_manager_copy_recent_samples, whose implementation is not
among the provided sources (only its declaration in imu_manager.h is). -/
def copy_recent (st : SampleStore) (max_count : Nat) : List StoredSample :=
  let r := min max_count (min st.capacity st.pushes)
  (List.range r).filterMap
    (fun j => st.slots ((st.cursor + st.capacity - (r - 1 - j)) % st.capacity))

/-- Modelled from the spec, section 4.2 overwrite policy: a reader that
last saw sequence_id a and next observes sequence_id b computes the gap
with wraparound-safe 32-bit subtraction; a gap of g means g - 1 samples
were missed.  The reader-side loss computation is not among the provided
sources. -/
def lossCount (last observed : Nat) : Nat := sub32 observed last - 1

/-- The push history tagged with the sequence_id each push receives when
the store starts from sequence counter k. -/
def tagFrom (k : Nat) : List ImuData → List StoredSample
  | [] => []
  | d :: rest => ⟨d, (k + 1) % 2 ^ 32⟩ :: tagFrom (k + 1) rest

/-- The push history tagged with the sequence ids assigned by a store
that starts from a fresh initStore. -/
def tagHistory (hs : List ImuData) : List StoredSample := tagFrom 0 hs

/-- Scheduling events emitted by one iteration of the imu_task loop
body, main.c lines 145-173. -/
inductive Ev where
  | taskDelayMs (ms : Nat)
  | taskDelayUntil (ticks : Nat)
deriving DecidableEq

/-- True exactly on the absolute-deadline delay event. -/
def Ev.isDelayUntil : Ev → Bool
  | .taskDelayUntil _ => true
  | _ => false

/-- Status of the task after one loop iteration; stopped would mean the
body left the while(1) loop. -/
inductive TaskStatus where
  | running
  | stopped
deriving DecidableEq

/-- State carried across iterations of the imu_task loop: the rolling
statistics counters and the sample store fed by data_buffer_add. -/
structure LoopState where
  stats : ImuStats
  store : SampleStore

/-- Result of one iteration of the imu_task loop body. -/
structure IterResult where
  state : LoopState
  status : TaskStatus
  report : Option (Rat × Rat)
  events : List Ev

/-- One iteration of the imu_task while(1) body, main.c lines 145-173,
with the decode result of imu_manager_read_all passed as an Option:
on success the sample is pushed (data_buffer_add) and the statistics are
updated; on failure the body only sleeps 5 ms and the state is left
untouched.  Both branches end with vTaskDelayUntil(tick_delay). -/
def imuTaskIter (tick_delay : Nat) (s : LoopState) :
    Option ImuData → IterResult
  | some d =>
    let store := s.store.push d
    let stepped := statsUpdate s.stats d
    ⟨⟨stepped.1, store⟩, .running, stepped.2, [Ev.taskDelayUntil tick_delay]⟩
  | none =>
    ⟨s, .running, none, [Ev.taskDelayMs 5, Ev.taskDelayUntil tick_delay]⟩

/-- Runs the loop body over a list of decode results, collecting the
per-iteration reports and statuses. -/
def runTrace (tick_delay : Nat) (s : LoopState) :
    List (Option ImuData) → LoopState × List (Option (Rat × Rat)) × List TaskStatus
  | [] => (s, [], [])
  | c :: rest =>
    let r := imuTaskIter tick_delay s c
    let next := runTrace tick_delay r.state rest
    (next.1, r.report :: next.2.1, r.status :: next.2.2)

/-- The FreeRTOS macro pdMS_TO_TICKS on a uint32 tick rate:
ms * configTICK_RATE_HZ / 1000 in TickType_t arithmetic. -/
def pdMsToTicks (tickRateHz ms : Nat) : Nat := (ms * tickRateHz) % 2 ^ 32 / 1000

/-- The delay argument computed once before the loop, main.c lines
139-140: frequency = pdMS_TO_TICKS(1), and tick_delay = frequency when
it is positive, 1 otherwise. -/
def tickDelayOf (tickRateHz : Nat) : Nat :=
  let frequency := pdMsToTicks tickRateHz 1
  if 0 < frequency then frequency else 1

/-- One loop iteration with the wall-clock value a call to
esp_timer_get_time would return supplied as an extra argument.  The loop
body at main.c lines 145-172 never reads the wall clock: line 151 takes
now from the decoded sample (sensor_data.timestamp_us), so the argument
is ignored, exactly as in the source. -/
def imuTaskIterClocked (tick_delay : Nat) (_wallClockNow : Nat) (s : LoopState)
    (read : Option ImuData) : IterResult :=
  imuTaskIter tick_delay s read

/-- Runs the loop over a list of decode results together with a stream
of wall-clock read times, one per iteration. -/
def runTraceClocked (tick_delay : Nat) (s : LoopState)
    (cs : List (Option ImuData)) (clock : Nat → Nat) :
    LoopState × List (Option (Rat × Rat)) :=
  match cs with
  | [] => (s, [])
  | c :: rest =>
    let r := imuTaskIterClocked tick_delay (clock 0) s c
    let next := runTraceClocked tick_delay r.state rest (fun i => clock (i + 1))
    (next.1, r.report :: next.2)

/-- Loop state at task start, main.c lines 141-143: counters zero and
stats_window_start taken from the wall clock (esp_timer_get_time), store
freshly created with capacity n. -/
def initLoop (n bootClock : Nat) : LoopState :=
  ⟨⟨0, 0, bootClock⟩, initStore n⟩

/-- A concrete decoded sample with the given timestamp and drained-item
count, all other fields inert. -/
def mkCycle (t n : Nat) : ImuData :=
  ⟨t, 0, 0, 0, 0, true, 0, n, 0, 0, 0⟩

/-- A placeholder decoded sample. -/
def dummyImu : ImuData := mkCycle 0 0

/-- A placeholder stored sample, used only as a getD default. -/
def dummySample : StoredSample := ⟨dummyImu, 0⟩

/-- The synthetic trace of claim C2: ten cycles spaced 100000
microseconds apart starting one spacing after time zero, each reporting
100 drained items. -/
def c2trace : List ImuData :=
  (List.range 10).map fun k => mkCycle (100000 * (k + 1)) 100

theorem pushAll_concat (st : SampleStore) (hs : List ImuData) (d : ImuData) :
    pushAll st (hs ++ [d]) = (pushAll st hs).push d := by
  simp [pushAll, List.foldl_append]

theorem store_inv (n : Nat) (hn : 0 < n) (hs : List ImuData) :
    (pushAll (initStore n) hs).capacity = n ∧
    (pushAll (initStore n) hs).pushes = hs.length ∧
    (pushAll (initStore n) hs).sequence_id = hs.length % 2 ^ 32 ∧
    (pushAll (initStore n) hs).cursor = (n - 1 + hs.length) % n ∧
    ∀ i, i < hs.length → hs.length ≤ i + n →
      (pushAll (initStore n) hs).slots (i % n) =
        (hs[i]?).map (fun d => ⟨d, (i + 1) % 2 ^ 32⟩) := by
  induction hs using List.reverseRecOn with
  | nil =>
      refine ⟨rfl, rfl, rfl, ?_, ?_⟩
      · show (initStore n).cursor = (n - 1 + 0) % n
        simp [initStore, Nat.mod_eq_of_lt (by omega : n - 1 < n)]
      · intro i hi _
        simp at hi
  | append_singleton hs d ih =>
      obtain ⟨hcap, hpush, hseq, hcur, hslot⟩ := ih
      rw [pushAll_concat]
      have hc : ((pushAll (initStore n) hs).cursor + 1) %
          (pushAll (initStore n) hs).capacity = hs.length % n := by
        rw [hcur, hcap, Nat.mod_add_mod]
        have e : n - 1 + hs.length + 1 = n + hs.length := by omega
        rw [e, Nat.add_mod_left]
      refine ⟨by simp [SampleStore.push, hcap], ?_, ?_, ?_, ?_⟩
      · simp [SampleStore.push, hpush]
      · simp only [SampleStore.push, hseq, List.length_append, List.length_cons,
          List.length_nil, Nat.mod_add_mod]
      · simp only [SampleStore.push, hc, List.length_append, List.length_cons,
          List.length_nil]
        rw [hcur, hcap] at hc
        have e : n - 1 + (hs.length + 1) = n + hs.length := by omega
        rw [e, Nat.add_mod_left]
      · intro i hi hw
        simp only [List.length_append, List.length_cons, List.length_nil] at hi hw
        simp only [SampleStore.push, hc]
        rcases Nat.lt_succ_iff_lt_or_eq.mp (by omega : i < hs.length + 1) with hlt | heq
        · have hne : ¬ (i % n = hs.length % n) := by
            intro he
            have hd : n ∣ hs.length - i := (Nat.modEq_iff_dvd' (le_of_lt hlt)).mp he
            have := Nat.le_of_dvd (by omega) hd
            omega
          rw [if_neg hne]
          rw [hslot i hlt (by omega)]
          rw [List.getElem?_append_left hlt]
        · subst heq
          rw [if_pos rfl]
          rw [List.getElem?_concat_length]
          simp [hseq, Nat.mod_add_mod]

theorem tagFrom_getElem? (k : Nat) (hs : List ImuData) (i : Nat) :
    (tagFrom k hs)[i]? = (hs[i]?).map (fun d => ⟨d, (k + i + 1) % 2 ^ 32⟩) := by
  induction hs generalizing k i with
  | nil => simp [tagFrom]
  | cons d rest ih =>
      cases i with
      | zero => simp [tagFrom]
      | succ j =>
          simp only [tagFrom, List.getElem?_cons_succ]
          rw [ih (k + 1) j]
          have e : k + 1 + j = k + (j + 1) := by omega
          rw [e]

theorem tagHistory_getElem? (hs : List ImuData) (i : Nat) :
    (tagHistory hs)[i]? = (hs[i]?).map (fun d => ⟨d, (i + 1) % 2 ^ 32⟩) := by
  have h := tagFrom_getElem? 0 hs i
  simpa [tagHistory] using h

theorem tagFrom_length (k : Nat) (hs : List ImuData) :
    (tagFrom k hs).length = hs.length := by
  induction hs generalizing k with
  | nil => rfl
  | cons d rest ih => simp [tagFrom, ih]

theorem filterMap_eq_map_of {α β : Type} (l : List α) (f : α → Option β)
    (g : α → β) (h : ∀ a ∈ l, f a = some (g a)) : l.filterMap f = l.map g := by
  induction l with
  | nil => rfl
  | cons a l ih =>
      simp only [List.filterMap_cons, h a (List.mem_cons_self a l), List.map_cons]
      rw [ih (fun x hx => h x (List.mem_cons_of_mem a hx))]

theorem range_map_getD_eq_drop {β : Type} (l : List β) (k : Nat) (d : β)
    (hk : k ≤ l.length) :
    (List.range (l.length - k)).map (fun j => (l[k + j]?).getD d) = l.drop k := by
  apply List.ext_getElem?
  intro nn
  rw [List.getElem?_map, List.getElem?_drop]
  by_cases h : nn < l.length - k
  · rw [List.getElem?_range h]
    have hlt : k + nn < l.length := by omega
    rw [List.getElem?_eq_getElem hlt]
    simp [List.getElem?_eq_getElem hlt]
  · have h1 : (List.range (l.length - k))[nn]? = none := by
      rw [List.getElem?_eq_none_iff, List.length_range]
      omega
    have h2 : l[k + nn]? = none := by
      rw [List.getElem?_eq_none_iff]
      omega
    rw [h1, h2]
    rfl

theorem copy_recent_pushAll (n : Nat) (hn : 0 < n) (hs : List ImuData) (m : Nat) :
    copy_recent (pushAll (initStore n) hs) m =
      (tagHistory hs).drop (hs.length - min m (min n hs.length)) := by
  obtain ⟨hcap, hpush, hseq, hcur, hslot⟩ := store_inv n hn hs
  have hlen : (tagHistory hs).length = hs.length := tagFrom_length 0 hs
  set r := min m (min n hs.length) with hr
  have hrn : r ≤ n := by omega
  have hrl : r ≤ hs.length := by omega
  unfold copy_recent
  rw [hcap, hpush, ← hr]
  have hdrop := range_map_getD_eq_drop (tagHistory hs) (hs.length - r) dummySample
    (by omega)
  rw [hlen] at hdrop
  have e0 : hs.length - (hs.length - r) = r := by omega
  rw [e0] at hdrop
  rw [← hdrop]
  apply filterMap_eq_map_of
  intro j hj
  have hjr : j < r := List.mem_range.mp hj
  have hidx : ((pushAll (initStore n) hs).cursor + n - (r - 1 - j)) % n =
      (hs.length - r + j) % n := by
    rw [hcur]
    have e1 : (n - 1 + hs.length) % n + n - (r - 1 - j) =
        (n - 1 + hs.length) % n + (n - (r - 1 - j)) := by omega
    rw [e1, Nat.mod_add_mod]
    have e2 : n - 1 + hs.length + (n - (r - 1 - j)) =
        n + (n + (hs.length - r + j)) := by omega
    rw [e2, Nat.add_mod_left, Nat.add_mod_left]
  rw [hidx]
  rw [hslot (hs.length - r + j) (by omega) (by omega)]
  have hget : hs[hs.length - r + j]? = some (hs.get ⟨hs.length - r + j, by omega⟩) := by
    rw [List.getElem?_eq_getElem (by omega)]
    simp
  rw [hget]
  have htag : (tagHistory hs)[hs.length - r + j]? =
      some ⟨hs.get ⟨hs.length - r + j, by omega⟩, (hs.length - r + j + 1) % 2 ^ 32⟩ := by
    rw [tagHistory_getElem?, hget]
    rfl
  rw [htag]
  rfl

theorem statsRun_fst_append (s : ImuStats) (l1 l2 : List ImuData) :
    (statsRun s (l1 ++ l2)).1 = (statsRun (statsRun s l1).1 l2).1 := by
  induction l1 generalizing s with
  | nil => rfl
  | cons d rest ih =>
      simp only [statsRun, List.cons_append]
      exact ih (statsUpdate s d).1

theorem statsRun_report_getElem? (s : ImuStats) (tr : List ImuData) (i : Nat)
    (hi : i < tr.length) :
    (statsRun s tr).2[i]? =
      some ((statsUpdate (statsRun s (tr.take i)).1 (tr.get ⟨i, hi⟩)).2) := by
  induction tr generalizing s i with
  | nil => simp at hi
  | cons d rest ih =>
      cases i with
      | zero => simp [statsRun]
      | succ j =>
          have hj : j < rest.length := by simpa using hi
          simp only [statsRun, List.getElem?_cons_succ, List.take_succ_cons,
            List.get_cons_succ]
          rw [ih]

/-- Claim C1: over any sequence of successful acquisition cycles, the
rolling statistics window closes on cycle i exactly when the uint64
difference between the cycle sample timestamp and stats_window_start is
at least 1000000 microseconds; at close the reported
throughput_batches_per_sec is the updated batch count divided by the
elapsed seconds and throughput_samples_per_sec the accumulated
drained-item count divided by the elapsed seconds, and the new state has
stats_window_start set to the closing sample timestamp with both
accumulators zeroed; otherwise no report is produced and the window
start is unchanged. -/
theorem c1_window_close (s : ImuStats) (tr : List ImuData) (i : Nat)
    (d : ImuData) (hd : tr[i]? = some d) :
    (statsRun s tr).2[i]? =
      some (if 1000000 ≤ sub64 d.timestamp_us
            (statsRun s (tr.take i)).1.stats_window_start then
          some
            (((((statsRun s (tr.take i)).1.batch_count + 1) % 2 ^ 32 : Nat) : Rat) /
                ((sub64 d.timestamp_us
                    (statsRun s (tr.take i)).1.stats_window_start : Nat) / (1000000 : Rat)),
              ((((statsRun s (tr.take i)).1.sample_accumulator + d.samples_read) % 2 ^ 32 :
                  Nat) : Rat) /
                ((sub64 d.timestamp_us
                    (statsRun s (tr.take i)).1.stats_window_start : Nat) / (1000000 : Rat)))
        else none) ∧
    (statsRun s (tr.take (i + 1))).1 =
      (if 1000000 ≤ sub64 d.timestamp_us
          (statsRun s (tr.take i)).1.stats_window_start then
        (⟨0, 0, d.timestamp_us⟩ : ImuStats)
      else
        ⟨((statsRun s (tr.take i)).1.batch_count + 1) % 2 ^ 32,
          ((statsRun s (tr.take i)).1.sample_accumulator + d.samples_read) % 2 ^ 32,
          (statsRun s (tr.take i)).1.stats_window_start⟩) := by
  have hi : i < tr.length := (List.getElem?_eq_some.mp hd).1
  have hgd : tr.get ⟨i, hi⟩ = d := by
    have := (List.getElem?_eq_some.mp hd).2
    simpa using this
  constructor
  · rw [statsRun_report_getElem? s tr i hi, hgd]
    by_cases hc : 1000000 ≤ sub64 d.timestamp_us
        (statsRun s (tr.take i)).1.stats_window_start
    · simp only [statsUpdate, if_pos hc]
    · simp only [statsUpdate, if_neg hc]
  · have htake : tr.take (i + 1) = tr.take i ++ [d] := by
      rw [← hgd]
      have h := List.take_concat_get tr i hi
      rw [← h, List.concat_eq_append]
      rfl
    rw [htake, statsRun_fst_append]
    by_cases hc : 1000000 ≤ sub64 d.timestamp_us
        (statsRun s (tr.take i)).1.stats_window_start
    · simp only [statsRun, statsUpdate, if_pos hc]
    · simp only [statsRun, statsUpdate, if_neg hc]

/-- Witness for C1 at a concrete one-cycle trace whose sample timestamp
closes the window. -/
theorem c1_window_close_witness :
    ([mkCycle 1000000 100] : List ImuData)[0]? = some (mkCycle 1000000 100) ∧
    ((statsRun ⟨0, 0, 0⟩ [mkCycle 1000000 100]).2[0]? =
      some (if 1000000 ≤ sub64 (mkCycle 1000000 100).timestamp_us
            (statsRun ⟨0, 0, 0⟩ ([mkCycle 1000000 100].take 0)).1.stats_window_start then
          some
            (((((statsRun ⟨0, 0, 0⟩ ([mkCycle 1000000 100].take 0)).1.batch_count + 1) % 2 ^ 32 : Nat) : Rat) /
                ((sub64 (mkCycle 1000000 100).timestamp_us
                    (statsRun ⟨0, 0, 0⟩ ([mkCycle 1000000 100].take 0)).1.stats_window_start : Nat) / (1000000 : Rat)),
              ((((statsRun ⟨0, 0, 0⟩ ([mkCycle 1000000 100].take 0)).1.sample_accumulator + (mkCycle 1000000 100).samples_read) % 2 ^ 32 :
                  Nat) : Rat) /
                ((sub64 (mkCycle 1000000 100).timestamp_us
                    (statsRun ⟨0, 0, 0⟩ ([mkCycle 1000000 100].take 0)).1.stats_window_start : Nat) / (1000000 : Rat)))
        else none) ∧
    (statsRun ⟨0, 0, 0⟩ ([mkCycle 1000000 100].take (0 + 1))).1 =
      (if 1000000 ≤ sub64 (mkCycle 1000000 100).timestamp_us
          (statsRun ⟨0, 0, 0⟩ ([mkCycle 1000000 100].take 0)).1.stats_window_start then
        (⟨0, 0, (mkCycle 1000000 100).timestamp_us⟩ : ImuStats)
      else
        ⟨((statsRun ⟨0, 0, 0⟩ ([mkCycle 1000000 100].take 0)).1.batch_count + 1) % 2 ^ 32,
          ((statsRun ⟨0, 0, 0⟩ ([mkCycle 1000000 100].take 0)).1.sample_accumulator + (mkCycle 1000000 100).samples_read) % 2 ^ 32,
          (statsRun ⟨0, 0, 0⟩ ([mkCycle 1000000 100].take 0)).1.stats_window_start⟩)) :=
  ⟨by decide, c1_window_close ⟨0, 0, 0⟩ [mkCycle 1000000 100] 0 (mkCycle 1000000 100)
    (by decide)⟩

theorem peek_latest_concat (n : Nat) (hn : 0 < n) (hs : List ImuData)
    (d : ImuData) :
    peek_latest (pushAll (initStore n) (hs ++ [d])) =
      some ⟨d, (hs.length + 1) % 2 ^ 32⟩ := by
  obtain ⟨hcap, hpush, hseq, hcur, hslot⟩ := store_inv n hn (hs ++ [d])
  have hlen : (hs ++ [d]).length = hs.length + 1 := by simp
  rw [hlen] at hpush hcur hslot
  unfold peek_latest
  rw [hpush, hcur]
  have e : n - 1 + (hs.length + 1) = hs.length + n := by omega
  rw [if_neg (by omega), e, Nat.add_mod_right]
  rw [hslot hs.length (by omega) (by omega)]
  rw [List.getElem?_concat_length]
  rfl

/-- Claim C4: peek_latest returns the empty result exactly when no push
has ever occurred, and after any history of pushes ending in sample d it
returns d (tagged with the sequence id of that final push), never an
older sample. -/
theorem c4_peek_latest (n : Nat) (hs hs2 : List ImuData) (d : ImuData)
    (hn : 0 < n) :
    (peek_latest (pushAll (initStore n) hs) = none ↔ hs = []) ∧
    peek_latest (pushAll (initStore n) (hs2 ++ [d])) =
      some ⟨d, (hs2.length + 1) % 2 ^ 32⟩ := by
  refine ⟨⟨?_, ?_⟩, peek_latest_concat n hn hs2 d⟩
  · intro hnone
    rcases List.eq_nil_or_concat hs with h | ⟨l, a, h⟩
    · exact h
    · subst h
      rw [List.concat_eq_append] at hnone ⊢
      rw [peek_latest_concat n hn l a] at hnone
      exact absurd hnone (by simp)
  · intro h
    subst h
    rfl

/-- Witness for C4 at capacity 2 with a two-push history. -/
theorem c4_peek_latest_witness :
    (0 : Nat) < 2 ∧
    ((peek_latest (pushAll (initStore 2) [mkCycle 1 1]) = none ↔
        ([mkCycle 1 1] : List ImuData) = []) ∧
      peek_latest (pushAll (initStore 2) ([mkCycle 1 1] ++ [mkCycle 2 2])) =
        some ⟨mkCycle 2 2, (([mkCycle 1 1] : List ImuData).length + 1) % 2 ^ 32⟩) :=
  ⟨by decide, c4_peek_latest 2 [mkCycle 1 1] [mkCycle 1 1] (mkCycle 2 2) (by decide)⟩

theorem tagFrom_chain' (k : Nat) (hs : List ImuData) :
    List.Chain' (fun a b => b.sequence_id = (a.sequence_id + 1) % 2 ^ 32)
      (tagFrom k hs) := by
  induction hs generalizing k with
  | nil => exact List.chain'_nil
  | cons d rest ih =>
      rw [tagFrom, List.chain'_cons']
      refine ⟨?_, ih (k + 1)⟩
      intro y hy
      cases rest with
      | nil => simp [tagFrom] at hy
      | cons d2 r2 =>
          simp only [tagFrom, List.head?_cons, Option.mem_def,
            Option.some.injEq] at hy
          rw [← hy, Nat.mod_add_mod]

/-- Claim C5: for a store of capacity n, every push history and every
bound m, copy_recent returns exactly the tagged suffix of the push
history of length min(m, min(n, pushes)), oldest-to-newest (so the
empty sequence before any push, and with m = n after n + k pushes
exactly the last n pushes in push order); its length is that minimum;
for every index j its j-th entry is push number (pushes - r + j) tagged
with sequence id (pushes - r + j + 1) mod 2^32, both sides empty beyond
the end; and consecutive returned samples always carry
wraparound-successor sequence ids. -/
theorem c5_copy_recent (n : Nat) (hs : List ImuData) (m j : Nat)
    (hn : 0 < n) :
    copy_recent (pushAll (initStore n) hs) m =
      (tagHistory hs).drop (hs.length - min m (min n hs.length)) ∧
    (copy_recent (pushAll (initStore n) hs) m).length =
      min m (min n hs.length) ∧
    (copy_recent (pushAll (initStore n) hs) m)[j]? =
      (hs[hs.length - min m (min n hs.length) + j]?).map
        (fun d => ⟨d, (hs.length - min m (min n hs.length) + j + 1) % 2 ^ 32⟩) ∧
    List.Chain' (fun a b => b.sequence_id = (a.sequence_id + 1) % 2 ^ 32)
      (copy_recent (pushAll (initStore n) hs) m) := by
  have hmain := copy_recent_pushAll n hn hs m
  have hlen : (tagHistory hs).length = hs.length := tagFrom_length 0 hs
  set r := min m (min n hs.length) with hr
  have hrl : r ≤ hs.length := by omega
  have hlength : (copy_recent (pushAll (initStore n) hs) m).length = r := by
    rw [hmain, List.length_drop, hlen]
    omega
  have hget : (copy_recent (pushAll (initStore n) hs) m)[j]? =
      (hs[hs.length - r + j]?).map
        (fun d => ⟨d, (hs.length - r + j + 1) % 2 ^ 32⟩) := by
    rw [hmain, List.getElem?_drop, tagHistory_getElem?]
  refine ⟨hmain, hlength, hget, ?_⟩
  rw [hmain]
  exact (tagFrom_chain' 0 hs).drop (hs.length - r)

/-- Witness for C5 at capacity 2, three pushes, bound 2, j = 0. -/
theorem c5_copy_recent_witness :
    (0 : Nat) < 2 ∧
    (copy_recent (pushAll (initStore 2) [mkCycle 1 1, mkCycle 2 2, mkCycle 3 3]) 2 =
      (tagHistory [mkCycle 1 1, mkCycle 2 2, mkCycle 3 3]).drop
        (([mkCycle 1 1, mkCycle 2 2, mkCycle 3 3] : List ImuData).length -
          min 2 (min 2 ([mkCycle 1 1, mkCycle 2 2, mkCycle 3 3] : List ImuData).length)) ∧
    (copy_recent (pushAll (initStore 2) [mkCycle 1 1, mkCycle 2 2, mkCycle 3 3]) 2).length =
      min 2 (min 2 ([mkCycle 1 1, mkCycle 2 2, mkCycle 3 3] : List ImuData).length) ∧
    (copy_recent (pushAll (initStore 2) [mkCycle 1 1, mkCycle 2 2, mkCycle 3 3]) 2)[0]? =
      (([mkCycle 1 1, mkCycle 2 2, mkCycle 3 3] : List ImuData)[
          ([mkCycle 1 1, mkCycle 2 2, mkCycle 3 3] : List ImuData).length -
            min 2 (min 2 ([mkCycle 1 1, mkCycle 2 2, mkCycle 3 3] : List ImuData).length) + 0]?).map
        (fun d => ⟨d, (([mkCycle 1 1, mkCycle 2 2, mkCycle 3 3] : List ImuData).length -
          min 2 (min 2 ([mkCycle 1 1, mkCycle 2 2, mkCycle 3 3] : List ImuData).length) + 0 + 1) % 2 ^ 32⟩) ∧
    List.Chain' (fun a b => b.sequence_id = (a.sequence_id + 1) % 2 ^ 32)
      (copy_recent (pushAll (initStore 2) [mkCycle 1 1, mkCycle 2 2, mkCycle 3 3]) 2)) :=
  ⟨by decide,
    c5_copy_recent 2 [mkCycle 1 1, mkCycle 2 2, mkCycle 3 3] 2 0 (by decide)⟩

/-- Claim C6 counterexample, at capacity 4: a reader that last saw
sequence_id 2 and next observes 2 + 4 + 1 computes, via wraparound-safe
32-bit subtraction with one subtracted for the newly observed sample, a
loss of 4 missed samples, not 4 - 1 = 3 as the claim states. -/
theorem c6_gap_loss_counterexample : ¬ lossCount 2 (2 + 4 + 1) = 4 - 1 := by
  decide

/-- Claim C6 as amended: under the gap rule of the spec (loss equals the
wraparound-safe gap minus one) the reader computes n missed samples, not
n - 1; and after pushes with sequence numbers 1 through 5 + n the store
holds sequence_id (5 + n) mod 2^32. -/
theorem c6_gap_loss (n : Nat) (hn : 0 < n) (h32 : n + 3 < 2 ^ 32) :
    lossCount 2 (2 + n + 1) = n ∧
    (pushAll (initStore n) (List.replicate (5 + n) dummyImu)).sequence_id =
      (5 + n) % 2 ^ 32 := by
  constructor
  · simp only [lossCount, sub32]
    omega
  · have h := (store_inv n hn (List.replicate (5 + n) dummyImu)).2.2.1
    rw [h, List.length_replicate]

/-- Witness for the amended C6 at capacity 4. -/
theorem c6_gap_loss_witness :
    (0 : Nat) < 4 ∧ 4 + 3 < 2 ^ 32 ∧
    (lossCount 2 (2 + 4 + 1) = 4 ∧
      (pushAll (initStore 4) (List.replicate (5 + 4) dummyImu)).sequence_id =
        (5 + 4) % 2 ^ 32) :=
  ⟨by decide, by decide, c6_gap_loss 4 (by decide) (by decide)⟩

/-- Claim C9 counterexample: with stats_window_start equal to 2^64 - 1
and a sample timestamp 0 (strictly below the window start), the uint64
difference wraps to 1, which is below 1000000, and the window does not
close, contradicting the claim that it closes on every such cycle. -/
theorem c9_wraparound_counterexample :
    (mkCycle 0 100).timestamp_us < 2 ^ 64 - 1 ∧
    sub64 (mkCycle 0 100).timestamp_us (2 ^ 64 - 1) < 1000000 ∧
    (statsUpdate ⟨0, 0, 2 ^ 64 - 1⟩ (mkCycle 0 100)).2 = none := by
  refine ⟨by decide, by decide, ?_⟩
  have hc : ¬ 1000000 ≤ sub64 (mkCycle 0 100).timestamp_us
      (ImuStats.mk 0 0 (2 ^ 64 - 1)).stats_window_start := by decide
  simp only [statsUpdate, if_neg hc]

/-- Claim C9 as amended: whenever the sample timestamp is strictly below
stats_window_start and the backwards step does not exceed 2^64 minus
1000000, the uint64 subtraction wraps to a value of at least 1000000 and
the window closes on that cycle. -/
theorem c9_wraparound_close (st : ImuStats) (d : ImuData)
    (h1 : d.timestamp_us < st.stats_window_start)
    (h2 : st.stats_window_start < 2 ^ 64)
    (h3 : st.stats_window_start - d.timestamp_us ≤ 2 ^ 64 - 1000000) :
    1000000 ≤ sub64 d.timestamp_us st.stats_window_start ∧
    ((statsUpdate st d).2).isSome = true := by
  have hc : 1000000 ≤ sub64 d.timestamp_us st.stats_window_start := by
    simp only [sub64]
    omega
  refine ⟨hc, ?_⟩
  simp only [statsUpdate, if_pos hc]
  rfl

/-- Witness for the amended C9 with window start 2000000 and sample
timestamp 0. -/
theorem c9_wraparound_close_witness :
    (mkCycle 0 100).timestamp_us < 2000000 ∧ (2000000 : Nat) < 2 ^ 64 ∧
    (2000000 : Nat) - (mkCycle 0 100).timestamp_us ≤ 2 ^ 64 - 1000000 ∧
    (1000000 ≤ sub64 (mkCycle 0 100).timestamp_us 2000000 ∧
      ((statsUpdate ⟨0, 0, 2000000⟩ (mkCycle 0 100)).2).isSome = true) :=
  ⟨by decide, by decide, by decide,
    c9_wraparound_close ⟨0, 0, 2000000⟩ (mkCycle 0 100) (by decide) (by decide)
      (by decide)⟩

/-- Claim C2: on the synthetic trace of ten successful cycles spaced
100000 microseconds apart starting one spacing after the window start,
with 100 items drained per cycle, the first nine cycles produce no
report, the tenth closes the window with throughput_batches_per_sec 10
and throughput_samples_per_sec 1000, and the counters are reset with the
window start moved to the closing timestamp 1000000. -/
theorem c2_synthetic_trace :
    (statsRun ⟨0, 0, 0⟩ c2trace).2 =
      List.replicate 9 none ++ [some ((10 : Rat), (1000 : Rat))] ∧
    (statsRun ⟨0, 0, 0⟩ c2trace).1 = ⟨0, 0, 1000000⟩ := by
  constructor
  · simp only [c2trace, List.range, List.range.loop, List.map, statsRun,
      statsUpdate, mkCycle, sub64, List.replicate]
    norm_num
  · simp only [c2trace, List.range, List.range.loop, List.map, statsRun,
      statsUpdate, mkCycle, sub64]
    norm_num

/-- Claim C3: a failed decode leaves the loop state untouched (nothing
is pushed, the window counters and window start are unchanged), produces
no report, and only sleeps; three consecutive failures leave the store
sequence_id, the slot contents, and the statistics exactly as before the
first failure, and every iteration ends with the task still running,
never in a stopped state. -/
theorem c3_decode_failure (tick : Nat) (s : LoopState) :
    imuTaskIter tick s none =
      ⟨s, .running, none, [Ev.taskDelayMs 5, Ev.taskDelayUntil tick]⟩ ∧
    runTrace tick s [none, none, none] =
      (s, [none, none, none], [.running, .running, .running]) ∧
    (runTrace tick s [none, none, none]).1.store.sequence_id =
      s.store.sequence_id ∧
    (runTrace tick s [none, none, none]).1.store.slots = s.store.slots ∧
    (runTrace tick s [none, none, none]).1.stats = s.stats :=
  ⟨rfl, rfl, rfl, rfl, rfl⟩

theorem runTraceClocked_indep (cs : List (Option ImuData)) (tick : Nat)
    (s : LoopState) (clk1 clk2 : Nat → Nat) :
    runTraceClocked tick s cs clk1 = runTraceClocked tick s cs clk2 := by
  induction cs generalizing s clk1 clk2 with
  | nil => rfl
  | cons c rest ih =>
      simp only [runTraceClocked, imuTaskIterClocked]
      rw [ih]

/-- Claim C7: the statistics computation is a deterministic function of
the decoded sample trace and the boot-time window start alone; two runs
over the same trace agree on every report and on the final state
whatever wall-clock values an esp_timer_get_time call would have
returned during the iterations. -/
theorem c7_stats_deterministic (n tick boot : Nat)
    (cs : List (Option ImuData)) (clk1 clk2 : Nat → Nat) :
    runTraceClocked tick (initLoop n boot) cs clk1 =
      runTraceClocked tick (initLoop n boot) cs clk2 :=
  runTraceClocked_indep cs tick (initLoop n boot) clk1 clk2

/-- Claim C10: for every tick-rate configuration the delay passed to
vTaskDelayUntil is at least one tick, and each loop iteration, whether
the decode succeeded or failed, emits exactly one vTaskDelayUntil event,
with that delay as its argument. -/
theorem c10_always_yields (rate : Nat) (s : LoopState)
    (read : Option ImuData) :
    1 ≤ tickDelayOf rate ∧
    (imuTaskIter (tickDelayOf rate) s read).events.filter Ev.isDelayUntil =
      [Ev.taskDelayUntil (tickDelayOf rate)] := by
  constructor
  · simp only [tickDelayOf]
    split <;> omega
  · cases read <;> rfl
